import Mathlib

/-!
Verification of the curve-fitting application's core layer against its
natural-language specification.

The development shallowly embeds, in Lean 4:
  * the custom-function manager (`src/core/custom_function_manager.py`):
    expression evaluation in a restricted namespace, the in-memory catalog,
    JSON persistence (save/load) and the add/remove operations;
  * the fitting dispatcher (`src/core/fitting.py`): built-in function info
    table, per-algorithm bounds/initial-guess normalisation, the
    `run_fitting` resolution logic, and the scalar residual objective;
  * the fit-quality reporter (`src/utils/report.py`): the R-squared
    computation.

Machine floats are modelled as extended rationals with explicit `inf`,
`ninf` and `nan` values where non-finite behaviour matters, and as plain
rationals where only exact arithmetic identities are at stake.  The
semantics of the allow-listed math functions (`sin`, `cos`, `exp`, `log`)
is kept abstract as a parameter `sem : MathSem`, since no claim depends on
their numeric values.  File-system writes are modelled on their success
path (an explicit `FileState` records what was persisted).
-/

namespace CurveFit

/-! ### Expression language and evaluator

The Python code keeps a custom function's body as a source string and
evaluates it with `eval(expression, {"__builtins__": {}}, namespace)`
inside the closure built by
`CustomFunctionManager.create_function_from_string`
(`src/core/custom_function_manager.py`, lines 138-178).  We embed the
arithmetic fragment those expressions use as an AST; evaluation looks
names up in the same restricted namespace the source builds. -/

/-- Interpretation of the allow-listed math function names. Kept abstract:
no claim depends on the numeric values of `sin`, `cos`, `exp`, `log`. -/
abbrev MathSem := String → ℚ → ℚ

/-- Abstract syntax of the expression fragment exercised by the claims:
constants, name references, the four arithmetic operators and calls of
named functions. -/
inductive Expr where
  | const (q : ℚ)
  | var (s : String)
  | add (a b : Expr)
  | sub (a b : Expr)
  | mul (a b : Expr)
  | div (a b : Expr)
  | call (f : String) (arg : Expr)
deriving DecidableEq

/-- Values a name can be bound to in the evaluation namespace: the `np`
module object, one of the allow-listed math functions, or a number. -/
inductive NsVal where
  | module
  | mathFn (f : String)
  | num (q : ℚ)
deriving DecidableEq

/-- Runtime faults of expression evaluation, mirroring the Python
exceptions `eval` can raise in this fragment. -/
inductive EvalErr where
  | nameError (s : String)
  | typeError
  | zeroDivisionError
deriving DecidableEq

/-- First-match lookup in an association list, the model of Python `dict`
lookup (the lists below are built so that the first match is the binding a
Python `dict` would hold). -/
def dictLookup {α : Type} (k : String) : List (String × α) → Option α
  | [] => none
  | (k', v) :: rest => if k' = k then some v else dictLookup k rest

/-- Python `d[k] = v`: replace the binding in place if the key is present,
otherwise append it. -/
def dictInsert {α : Type} (k : String) (v : α) : List (String × α) → List (String × α)
  | [] => [(k, v)]
  | (k', v') :: rest => if k' = k then (k, v) :: rest else (k', v') :: dictInsert k v rest

/-- Python `del d[k]` on an association list. -/
def dictRemove {α : Type} (k : String) (l : List (String × α)) : List (String × α) :=
  l.filter (fun pr => pr.1 != k)

/-- Coerce a namespace value to a number; arithmetic on the module object
or on a function object raises `TypeError` in Python. -/
def asNum : NsVal → Except EvalErr ℚ
  | .num q => .ok q
  | _ => .error .typeError

/-- Evaluation of an expression in a namespace, mirroring Python `eval`
over the embedded fragment: unknown names raise `NameError`, arithmetic on
non-numbers raises `TypeError`, division by zero raises
`ZeroDivisionError`, and a call applies an allow-listed math function via
`sem`. -/
def evalExpr (sem : MathSem) : Expr → List (String × NsVal) → Except EvalErr NsVal
  | .const q, _ => .ok (.num q)
  | .var s, ns =>
    match dictLookup s ns with
    | some v => .ok v
    | none => .error (.nameError s)
  | .add a b, ns => do
    let qa ← asNum (← evalExpr sem a ns)
    let qb ← asNum (← evalExpr sem b ns)
    .ok (.num (qa + qb))
  | .sub a b, ns => do
    let qa ← asNum (← evalExpr sem a ns)
    let qb ← asNum (← evalExpr sem b ns)
    .ok (.num (qa - qb))
  | .mul a b, ns => do
    let qa ← asNum (← evalExpr sem a ns)
    let qb ← asNum (← evalExpr sem b ns)
    .ok (.num (qa * qb))
  | .div a b, ns => do
    let qa ← asNum (← evalExpr sem a ns)
    let qb ← asNum (← evalExpr sem b ns)
    if qb = 0 then .error .zeroDivisionError else .ok (.num (qa / qb))
  | .call f a, ns =>
    match dictLookup f ns with
    | none => .error (.nameError f)
    | some (.mathFn g) => do
      let qa ← asNum (← evalExpr sem a ns)
      .ok (.num (sem g qa))
    | some _ => .error .typeError

/-! ### The evaluation namespace

`custom_function` (`src/core/custom_function_manager.py`, lines 156-172)
builds `namespace = {"np": np, "sin": np.sin, "cos": np.cos,
"exp": np.exp, "log": np.log, **param_dict}` where
`param_dict = {param_names[i]: args[i] for i in range(min(len(param_names),
len(args)))}` followed by `param_dict["x"] = x`.  Later dict entries
override earlier ones, so the precedence is `x`, then parameters with a
later index winning, then the base bindings; the association lists below
are ordered so that first-match `dictLookup` realises exactly that
precedence. -/

/-- The base bindings of the namespace: the whole `np` module plus the
four allow-listed functions. -/
def base_namespace : List (String × NsVal) :=
  [("np", .module), ("sin", .mathFn "sin"), ("cos", .mathFn "cos"),
   ("exp", .mathFn "exp"), ("log", .mathFn "log")]

/-- `param_dict` before `x` is added: the declared names zipped with the
supplied arguments (Python's `range(min(...))` is `List.zip`'s
truncation). -/
def bound_params (paramNames : List String) (args : List ℚ) : List (String × NsVal) :=
  (paramNames.zip args).map (fun pr => (pr.1, NsVal.num pr.2))

/-- The full evaluation namespace, in lookup-precedence order. -/
def custom_namespace (paramNames : List String) (args : List ℚ) (x : ℚ) :
    List (String × NsVal) :=
  ("x", NsVal.num x) :: (bound_params paramNames args).reverse ++ base_namespace

/-- A parameter record as stored by the dialog and the JSON file:
`{"name": ..., "init_value": ..., "desc": ...}`. -/
structure Param where
  name : String
  init_value : ℚ
  desc : String
deriving DecidableEq

/-- The closure body of `custom_function`: evaluate the expression in the
restricted namespace.  Note there is no handler here — any evaluation
fault propagates to the caller. -/
def custom_function (expression : Expr) (param_names : List String)
    (sem : MathSem) (x : ℚ) (args : List ℚ) : Except EvalErr NsVal :=
  evalExpr sem expression (custom_namespace param_names args x)

/-- `CustomFunctionManager.create_function_from_string` (lines 138-178):
extracts the parameter names and returns the closure.  The expression is
not compiled or test-evaluated here; the only work done eagerly is the
list comprehension over `params`. -/
def create_function_from_string (expression : Expr) (params : List Param) :
    MathSem → ℚ → List ℚ → Except EvalErr NsVal :=
  custom_function expression (params.map (·.name))

/-! ### Catalog state and persistence -/

/-- One in-memory catalog entry, mirroring the dict literal built at
`custom_function_manager.py` lines 43-49 and 97-103. -/
structure FuncEntry where
  function : MathSem → ℚ → List ℚ → Except EvalErr NsVal
  expression : Expr
  params : List Param
  param_count : ℕ
  equation : Expr

/-- The record returned by `get_function_info`: the entry with the
`function` object removed (lines 124-132). -/
structure FuncInfo where
  expression : Expr
  params : List Param
  param_count : ℕ
  equation : Expr
deriving DecidableEq

/-- The in-memory `self.custom_functions` dict. -/
abbrev Catalog := List (String × FuncEntry)

/-- A raw JSON entry as read from `functions.json`; a `none` field models
a missing or ill-typed key (accessing it raises `KeyError`). -/
structure RawEntry where
  expression : Option Expr
  params : Option (List Param)
deriving DecidableEq

/-- The state of the persisted `functions.json` file. -/
inductive FileState where
  | missing
  | corrupt
  | ok (raw : List (String × RawEntry))
deriving DecidableEq

/-- The entry both `load_functions` and `add_function` build from an
expression and a parameter list. -/
def mk_catalog_entry (e : Expr) (ps : List Param) : FuncEntry :=
  { function := create_function_from_string e ps
    expression := e
    params := ps
    param_count := ps.length
    equation := e }

/-- The `for name, data in function_data.items()` loop of
`load_functions`, which runs inside a single `try`: the first entry whose
`expression` or `params` key is missing raises, aborting the whole loop
and keeping only the entries inserted before it. -/
def loadLoop : Catalog → List (String × RawEntry) → Catalog
  | st, [] => st
  | st, (n, raw) :: rest =>
    match raw.expression, raw.params with
    | some e, some ps => loadLoop (dictInsert n (mk_catalog_entry e ps) st) rest
    | _, _ => st

/-- `CustomFunctionManager.load_functions` (lines 30-51): resets the
catalog, returns it empty when the file is missing or `json.load` fails,
and otherwise runs the rebuild loop under one exception handler. -/
def load_functions : FileState → Catalog
  | .missing => []
  | .corrupt => []
  | .ok raw => loadLoop [] raw

/-- The `save_data` built by `save_functions` (lines 53-72): only
`expression` and `params` are serialized. -/
def serialize_functions (st : Catalog) : List (String × RawEntry) :=
  st.map (fun pr => (pr.1, { expression := some pr.2.expression, params := some pr.2.params }))

/-- Successful `save_functions`: the file now holds the serialized
catalog.  Disk write failure is an environment fault outside the model;
the success path is modelled. -/
def save_functions (st : Catalog) : FileState :=
  .ok (serialize_functions st)

/-- The manager's world: the in-memory dict plus the persisted file. -/
structure World where
  mem : Catalog
  file : FileState

/-- `CustomFunctionManager.add_function` (lines 74-109): builds the
closure (which cannot fail for well-formed parameter records, since the
expression itself is never inspected), stores the entry, saves, and
returns the save result. -/
def add_function (w : World) (name : String) (e : Expr) (ps : List Param) :
    World × Bool :=
  let mem' := dictInsert name (mk_catalog_entry e ps) w.mem
  (⟨mem', save_functions mem'⟩, true)

/-- `CustomFunctionManager.remove_function` (lines 111-116). -/
def remove_function (w : World) (name : String) : World × Bool :=
  if (dictLookup name w.mem).isSome then
    let mem' := dictRemove name w.mem
    (⟨mem', save_functions mem'⟩, true)
  else (w, false)

/-- `CustomFunctionManager.get_function` (lines 118-122). -/
def get_function (st : Catalog) (name : String) :
    Option (MathSem → ℚ → List ℚ → Except EvalErr NsVal) :=
  (dictLookup name st).map (·.function)

/-- `CustomFunctionManager.get_function_info` (lines 124-132): the stored
record with the `function` object dropped. -/
def get_function_info (st : Catalog) (name : String) : Option FuncInfo :=
  (dictLookup name st).map (fun en => ⟨en.expression, en.params, en.param_count, en.equation⟩)

/-- The manager operations a session can interleave. -/
inductive MgrOp where
  | load
  | add (name : String) (e : Expr) (ps : List Param)
  | remove (name : String)

/-- Apply one manager operation to the world. -/
def applyOp (w : World) : MgrOp → World
  | .load => ⟨load_functions w.file, w.file⟩
  | .add n e ps => (add_function w n e ps).1
  | .remove n => (remove_function w n).1

/-- Run a sequence of manager operations. -/
def runOps (w : World) (ops : List MgrOp) : World :=
  ops.foldl applyOp w

/-- The world right after `CustomFunctionManager.__init__`, which loads
the file found on disk. -/
def initWorld (file : FileState) : World :=
  ⟨load_functions file, file⟩

/-! ### Fitting dispatcher (`src/core/fitting.py`)

Each algorithm method deterministically computes the arguments it hands
to the scipy optimizer; the optimizer itself is an opaque external
collaborator.  We embed everything up to (and including) the argument
lists of that call: the dispatcher's result is the `OptCall` describing
which optimizer would be invoked and with which internally-used
bounds/initial-guess array. -/

/-- An entry of `FunctionModels.function_info`
(`src/core/function_models.py`, lines 26-62). -/
structure BuiltinInfo where
  equation : String
  params : List String
  param_count : ℕ
deriving DecidableEq

/-- `FunctionModels.get_function_info` over the fixed built-in catalog. -/
def builtin_function_info : String → Option BuiltinInfo
  | "Linear" => some ⟨"y = a*x + b", ["a", "b"], 2⟩
  | "Quadratic" => some ⟨"y = a*x^2 + b*x + c", ["a", "b", "c"], 3⟩
  | "Cubic" => some ⟨"y = a*x^3 + b*x^2 + c*x + d", ["a", "b", "c", "d"], 4⟩
  | "Power Law" => some ⟨"y = a*x^b + c", ["a", "b", "c"], 3⟩
  | "Exponential" => some ⟨"y = a*exp(b*x) + c", ["a", "b", "c"], 3⟩
  | "Double Power Law" => some ⟨"y = a*x^b + c*x^d", ["a", "b", "c", "d"], 4⟩
  | "Triple Power Law" => some ⟨"y = a*x^b + c*x^d + e*x^f", ["a", "b", "c", "d", "e", "f"], 6⟩
  | _ => none

/-- The fields of the `params` dict that the embedded code paths read or
write.  `none` models an absent key (so `params.get(key, default)` is
`Option.getD`). -/
structure FitParams where
  function_name : Option String := none
  bounds : Option (List (ℚ × ℚ)) := none
  x0 : Option (List ℚ) := none
  param_count : Option ℕ := none

/-- The parameter-count resolution every algorithm method repeats
verbatim (e.g. `fitting.py` lines 192-199): consult only the BUILT-IN
catalog and fall back to 3 when the name is unknown there.  The custom
catalog is never consulted here, and the `param_count` stored into the
params dict by `run_fitting` is ignored. -/
def resolved_param_count (p : FitParams) : ℕ :=
  match builtin_function_info (p.function_name.getD "Unknown") with
  | some info => info.param_count
  | none => 3

/-- Bounds used internally by `differential_evolution` (lines 202-206):
default `[(0, 10)] * param_count`, and a supplied array of the wrong
length is replaced wholesale by that default. -/
def differential_evolution_bounds (p : FitParams) : List (ℚ × ℚ) :=
  let n := resolved_param_count p
  let bounds := p.bounds.getD (List.replicate n ((0 : ℚ), (10 : ℚ)))
  if bounds.length ≠ n then List.replicate n ((0 : ℚ), (10 : ℚ)) else bounds

/-- Initial guess used internally by `basin_hopping` (lines 247-251). -/
def basin_hopping_x0 (p : FitParams) : List ℚ :=
  let n := resolved_param_count p
  let x0 := p.x0.getD (List.replicate n (1 : ℚ))
  if x0.length ≠ n then List.replicate n (1 : ℚ) else x0

/-- Bounds used internally by `shgo` (lines 286-290). -/
def shgo_bounds (p : FitParams) : List (ℚ × ℚ) :=
  let n := resolved_param_count p
  let bounds := p.bounds.getD (List.replicate n ((0 : ℚ), (10 : ℚ)))
  if bounds.length ≠ n then List.replicate n ((0 : ℚ), (10 : ℚ)) else bounds

/-- Bounds used internally by `dual_annealing` (lines 322-327). -/
def dual_annealing_bounds (p : FitParams) : List (ℚ × ℚ) :=
  let n := resolved_param_count p
  let bounds := p.bounds.getD (List.replicate n ((0 : ℚ), (10 : ℚ)))
  if bounds.length ≠ n then List.replicate n ((0 : ℚ), (10 : ℚ)) else bounds

/-- Initial guess used internally by `least_squares` (lines 380-384). -/
def least_squares_x0 (p : FitParams) : List ℚ :=
  let n := resolved_param_count p
  let x0 := p.x0.getD (List.replicate n (1 : ℚ))
  if x0.length ≠ n then List.replicate n (1 : ℚ) else x0

/-- The optimizer invocation an algorithm method performs, carrying the
internally-used configuration array. -/
inductive OptCall where
  | differentialEvolution (bounds : List (ℚ × ℚ))
  | basinHopping (x0 : List ℚ)
  | shgoCall (bounds : List (ℚ × ℚ))
  | dualAnnealing (bounds : List (ℚ × ℚ))
  | leastSquares (x0 : List ℚ)
deriving DecidableEq

/-- The keys of `self.algorithms` (`fitting.py` lines 16-22). -/
def algorithm_names : List String :=
  ["Differential Evolution", "Basin Hopping", "SHGO", "Dual Annealing", "Least Squares"]

/-- `self.algorithms[algorithm_name](function, x_data, y_data, params)`:
which optimizer gets invoked, with which internally-used arrays. -/
def dispatch_algorithm (algorithm_name : String) (p : FitParams) : OptCall :=
  if algorithm_name = "Differential Evolution" then
    .differentialEvolution (differential_evolution_bounds p)
  else if algorithm_name = "Basin Hopping" then .basinHopping (basin_hopping_x0 p)
  else if algorithm_name = "SHGO" then .shgoCall (shgo_bounds p)
  else if algorithm_name = "Dual Annealing" then .dualAnnealing (dual_annealing_bounds p)
  else .leastSquares (least_squares_x0 p)

/-- The typed failures `run_fitting` raises (as `ValueError`s in the
source; the spec names them `UnknownAlgorithm` and `UnknownFunction`). -/
inductive FitError where
  | unknownAlgorithm (s : String)
  | unknownFunction (s : String)
deriving DecidableEq

/-- `FittingAlgorithms.run_fitting` (lines 24-80): check the algorithm
table, resolve the function name first against the built-in catalog and
then against the custom catalog (the fresh `CustomFunctionManager()`
loads `custom` from disk), raise a typed error if unresolved, store the
resolved `param_count` into the params dict, and dispatch.  An `.error`
result is raised before any optimizer call and before the dict is
mutated. -/
def run_fitting (custom : Catalog) (algorithm_name : String) (p : FitParams) :
    Except FitError OptCall :=
  if algorithm_name ∈ algorithm_names then
    let function_name := p.function_name.getD "Unknown"
    match builtin_function_info function_name with
    | some info =>
      .ok (dispatch_algorithm algorithm_name { p with param_count := some info.param_count })
    | none =>
      match get_function_info custom function_name with
      | some cinfo =>
        .ok (dispatch_algorithm algorithm_name { p with param_count := some cinfo.param_count })
      | none => .error (.unknownFunction function_name)
  else .error (.unknownAlgorithm algorithm_name)

/-! ### Scalar residual objective (`fitting.py` lines 82-132)

`residual_func` closes over the target function and the data; the
returned `residual(params)` wraps the whole evaluation in
`try: ... except: return np.inf`.  We model machine floats here as
`PyFloat` (rational, plus the IEEE special values) because the claim is
exactly about non-finite propagation, and the target function as an
abstract map from a parameter vector to either a raised exception
(`Except.error`) or a vector of output values. -/

/-- A Python/numpy float: finite (exact rational), the two infinities, or
`nan`. -/
inductive PyFloat where
  | finite (q : ℚ)
  | inf
  | ninf
  | nan
deriving DecidableEq

/-- IEEE subtraction on the embedded floats. -/
def PyFloat.sub : PyFloat → PyFloat → PyFloat
  | .nan, _ => .nan
  | _, .nan => .nan
  | .finite a, .finite b => .finite (a - b)
  | .finite _, .inf => .ninf
  | .finite _, .ninf => .inf
  | .inf, .finite _ => .inf
  | .inf, .inf => .nan
  | .inf, .ninf => .inf
  | .ninf, .finite _ => .ninf
  | .ninf, .inf => .ninf
  | .ninf, .ninf => .nan

/-- IEEE squaring. -/
def PyFloat.sq : PyFloat → PyFloat
  | .nan => .nan
  | .inf => .inf
  | .ninf => .inf
  | .finite a => .finite (a * a)

/-- IEEE addition. -/
def PyFloat.addF : PyFloat → PyFloat → PyFloat
  | .nan, _ => .nan
  | _, .nan => .nan
  | .finite a, .finite b => .finite (a + b)
  | .inf, .ninf => .nan
  | .ninf, .inf => .nan
  | .inf, _ => .inf
  | _, .inf => .inf
  | .ninf, _ => .ninf
  | _, .ninf => .ninf

/-- `np.sum` over the embedded floats. -/
def pySum (l : List PyFloat) : PyFloat :=
  l.foldl PyFloat.addF (.finite 0)

/-- `np.sum((y_data - y_pred) ** 2)` elementwise. -/
def sum_squared_residuals (y ypred : List PyFloat) : PyFloat :=
  pySum ((y.zip ypred).map (fun pr => (pr.1.sub pr.2).sq))

/-- The target evaluator as the residual wrapper sees it: a candidate
parameter vector either raises (`Except.error`) or yields the predicted
values `function(x_data, *params)` (with `x_data` baked in). -/
abbrev TargetFunction := List ℚ → Except Unit (List PyFloat)

/-- The parameter trimming at `fitting.py` lines 120-123: when the
bytecode matching recovered an expected count, over-long vectors are
truncated to it. -/
def trim_params (expected : Option ℕ) (params : List ℚ) : List ℚ :=
  match expected with
  | some n => if n < params.length then params.take n else params
  | none => params

/-- The `residual(params)` closure returned by
`FittingAlgorithms.residual_func` (lines 115-132), used as the scalar
objective by Differential Evolution, Basin Hopping, SHGO and Dual
Annealing: a raised exception is converted to `np.inf`, and otherwise the
sum of squared residuals is returned as computed. -/
def residual_func (f : TargetFunction) (y_data : List PyFloat) (expected : Option ℕ) :
    List ℚ → PyFloat :=
  fun params =>
    match f (trim_params expected params) with
    | .error _ => .inf
    | .ok y_pred => sum_squared_residuals y_data y_pred

/-! ### Fit-quality reporter (`src/utils/report.py` lines 42-48)

The R-squared computation is exact arithmetic on the data; it is embedded
over `ℚ`. -/

/-- `np.mean(y_data)`. -/
def mean (y : List ℚ) : ℚ :=
  y.sum / (y.length : ℚ)

/-- `ss_tot = np.sum((y_data - np.mean(y_data)) ** 2)`. -/
def ss_tot (y : List ℚ) : ℚ :=
  (y.map (fun v => (v - mean y) ^ 2)).sum

/-- `ss_res = np.sum((y_data - y_pred) ** 2)`. -/
def ss_res (y y_pred : List ℚ) : ℚ :=
  ((y.zip y_pred).map (fun pr => (pr.1 - pr.2) ^ 2)).sum

/-- The `r_squared` branch of `generate_report`: 1 when `ss_tot == 0`,
else `1 - ss_res / ss_tot`. -/
def r_squared (y y_pred : List ℚ) : ℚ :=
  if ss_tot y = 0 then 1 else 1 - ss_res y y_pred / ss_tot y

/-! ### Concrete instances used by counterexamples and witnesses -/

/-- A fixed interpretation of the math functions, used wherever a closed
instance is needed. -/
def semZero : MathSem := fun _ _ => 0

/-- A well-formed parameter record `a` with initial value 1. -/
def paramA : Param := ⟨"a", 1, "Parameter a"⟩

/-- A well-formed parameter record `b` with initial value 1. -/
def paramB : Param := ⟨"b", 1, "Parameter b"⟩

/-- An expression referencing the undeclared name `qq`; it cannot be
evaluated at any point, under any namespace built from parameter `a`. -/
def badExpr : Expr := .var "qq"

/-- A custom catalog holding one function `MyFunc` with two declared
parameters. -/
def myFuncCatalog : Catalog :=
  [("MyFunc", mk_catalog_entry (Expr.var "x") [paramA, paramB])]

/-- A target evaluator that returns `nan` (without raising) for every
candidate vector — numpy behaviour of e.g. a negative base raised to a
fractional power over an array. -/
def cexTarget : TargetFunction := fun _ => .ok [PyFloat.nan]

/-- A target evaluator that raises for every candidate vector. -/
def raisingTarget : TargetFunction := fun _ => .error ()

/-- A well-formed persisted entry. -/
def goodEntryOne : RawEntry := ⟨some (Expr.const 1), some [paramA]⟩

/-- A second well-formed persisted entry. -/
def goodEntryTwo : RawEntry := ⟨some (Expr.const 2), some [paramA]⟩

/-- A malformed persisted entry: its `expression` key is missing. -/
def malformedEntry : RawEntry := ⟨none, some [paramA]⟩

/-- A persisted file holding a well-formed entry, then a malformed one,
then another well-formed one. -/
def mixedRawFile : List (String × RawEntry) :=
  [("g1", goodEntryOne), ("bad", malformedEntry), ("g2", goodEntryTwo)]

/-- A fitting request for `Power Law` (3 parameters) supplying a bounds
array of length 4 and an initial-guess array of length 2. -/
def c4Params : FitParams :=
  { function_name := some "Power Law"
    bounds := some [((1 : ℚ), 2), (3, 4), (5, 6), (7, 8)]
    x0 := some [(2 : ℚ), 3] }

/-- The built-in info record for `Power Law`. -/
def powerLawInfo : BuiltinInfo := ⟨"y = a*x^b + c", ["a", "b", "c"], 3⟩

/-- Modelled from the spec's words for claim C4: a supplied bounds array
whose length disagrees with `param_count` is "silently truncated or
padded to the correct length with the same default fill value (a (0,10)
bound)".  Used only to compare the spec's described behaviour against the
code's. -/
def spec_truncate_pad_bounds (supplied : List (ℚ × ℚ)) (n : ℕ) : List (ℚ × ℚ) :=
  supplied.take n ++ List.replicate (n - supplied.length) ((0 : ℚ), (10 : ℚ))

/-- Consistency of one stored catalog entry: the derived `param_count`
matches the parameter list and the displayed `equation` is exactly the
`expression`. -/
def entry_consistent (en : FuncEntry) : Prop :=
  en.param_count = en.params.length ∧ en.equation = en.expression

/-! ### Helper lemmas about the dictionary model -/

theorem dictLookup_dictInsert_self {α : Type} (k : String) (v : α)
    (l : List (String × α)) : dictLookup k (dictInsert k v l) = some v := by
  induction l with
  | nil => simp [dictInsert, dictLookup]
  | cons hd tl ih =>
    obtain ⟨k', v'⟩ := hd
    by_cases h : k' = k
    · simp [dictInsert, h, dictLookup]
    · simp [dictInsert, h, dictLookup, ih]

theorem mem_keys_dictInsert {α : Type} {k m : String} {v : α}
    {l : List (String × α)} (h : m ∈ (dictInsert k v l).map Prod.fst) :
    m = k ∨ m ∈ l.map Prod.fst := by
  induction l with
  | nil => simpa [dictInsert] using h
  | cons hd tl ih =>
    obtain ⟨k', v'⟩ := hd
    by_cases hk : k' = k
    · simp only [dictInsert, if_pos hk, List.map_cons, List.mem_cons] at h
      rcases h with h | h
      · exact Or.inl h
      · exact Or.inr (by simp [h])
    · simp only [dictInsert, if_neg hk, List.map_cons, List.mem_cons] at h
      rcases h with h | h
      · exact Or.inr (by simp [h])
      · rcases ih h with h' | h'
        · exact Or.inl h'
        · exact Or.inr (by simp [h'])

theorem nodup_keys_dictInsert {α : Type} (k : String) (v : α)
    {l : List (String × α)} (h : (l.map Prod.fst).Nodup) :
    ((dictInsert k v l).map Prod.fst).Nodup := by
  induction l with
  | nil => simp [dictInsert]
  | cons hd tl ih =>
    obtain ⟨k', v'⟩ := hd
    simp only [List.map_cons, List.nodup_cons] at h
    by_cases hk : k' = k
    · subst hk
      simpa [dictInsert, List.nodup_cons] using h
    · simp only [dictInsert, if_neg hk, List.map_cons, List.nodup_cons]
      refine ⟨fun hmem => ?_, ih h.2⟩
      rcases mem_keys_dictInsert hmem with h' | h'
      · exact hk h'
      · exact h.1 h'

theorem dictInsert_of_not_mem {α : Type} {k : String} (v : α)
    {l : List (String × α)} (h : k ∉ l.map Prod.fst) :
    dictInsert k v l = l ++ [(k, v)] := by
  induction l with
  | nil => simp [dictInsert]
  | cons hd tl ih =>
    obtain ⟨k', v'⟩ := hd
    simp only [List.map_cons, List.mem_cons] at h
    push_neg at h
    have hk : ¬ k' = k := fun hh => h.1 hh.symm
    simp [dictInsert, hk, ih h.2]

theorem dictLookup_map_value {α β : Type} (g : α → β) (k : String)
    (l : List (String × α)) :
    dictLookup k (l.map (fun pr => (pr.1, g pr.2))) = (dictLookup k l).map g := by
  induction l with
  | nil => simp [dictLookup]
  | cons hd tl ih =>
    obtain ⟨k', v'⟩ := hd
    by_cases h : k' = k
    · simp [dictLookup, h]
    · simp [dictLookup, h, ih]

theorem mem_dictInsert {α : Type} {k : String} {v : α} {pr : String × α}
    {l : List (String × α)} (h : pr ∈ dictInsert k v l) :
    pr = (k, v) ∨ pr ∈ l := by
  induction l with
  | nil => simpa [dictInsert] using h
  | cons hd tl ih =>
    obtain ⟨k', v'⟩ := hd
    by_cases hk : k' = k
    · simp only [dictInsert, if_pos hk, List.mem_cons] at h
      rcases h with h | h
      · exact Or.inl h
      · exact Or.inr (List.mem_cons_of_mem _ h)
    · simp only [dictInsert, if_neg hk, List.mem_cons] at h
      rcases h with h | h
      · exact Or.inr (by simp [h])
      · rcases ih h with h' | h'
        · exact Or.inl h'
        · exact Or.inr (List.mem_cons_of_mem _ h')

theorem dictLookup_mem {α : Type} {k : String} {v : α}
    {l : List (String × α)} (h : dictLookup k l = some v) : (k, v) ∈ l := by
  induction l with
  | nil => simp [dictLookup] at h
  | cons hd tl ih =>
    obtain ⟨k', v'⟩ := hd
    by_cases hk : k' = k
    · simp only [dictLookup, if_pos hk] at h
      subst hk
      simp [← Option.some_inj.mp h]
    · simp only [dictLookup, if_neg hk] at h
      exact List.mem_cons_of_mem _ (ih h)

theorem dictLookup_isSome_iff {α : Type} (k : String) (l : List (String × α)) :
    (dictLookup k l).isSome ↔ k ∈ l.map Prod.fst := by
  induction l with
  | nil => simp [dictLookup]
  | cons hd tl ih =>
    obtain ⟨k', v'⟩ := hd
    by_cases hk : k' = k
    · simp [dictLookup, hk]
    · rw [show dictLookup k ((k', v') :: tl) = dictLookup k tl from by
        simp [dictLookup, hk]]
      simp only [List.map_cons, List.mem_cons]
      rw [ih]
      constructor
      · exact fun h => Or.inr h
      · rintro (h | h)
        · exact absurd h.symm hk
        · exact h

/-! ### Helper lemmas about persistence -/

theorem loadLoop_serialize (st : Catalog) (acc : Catalog)
    (hnd : (st.map Prod.fst).Nodup)
    (hdisj : ∀ k ∈ st.map Prod.fst, k ∉ acc.map Prod.fst) :
    loadLoop acc (serialize_functions st)
      = acc ++ st.map (fun pr => (pr.1, mk_catalog_entry pr.2.expression pr.2.params)) := by
  induction st generalizing acc with
  | nil => simp [serialize_functions, loadLoop]
  | cons hd tl ih =>
    obtain ⟨n, en⟩ := hd
    simp only [List.map_cons, List.nodup_cons] at hnd
    have hnotacc : n ∉ acc.map Prod.fst := hdisj n (by simp)
    have step : loadLoop acc (serialize_functions ((n, en) :: tl))
        = loadLoop (dictInsert n (mk_catalog_entry en.expression en.params) acc)
            (serialize_functions tl) := by
      simp [serialize_functions, loadLoop]
    rw [step, dictInsert_of_not_mem _ hnotacc]
    rw [ih _ hnd.2 ?_]
    · simp
    · intro k hk
      simp only [List.map_append, List.mem_append, List.map_cons]
      rintro (hmem | hmem)
      · exact hdisj k (by simp [hk]) hmem
      · simp only [List.map_nil, List.mem_singleton] at hmem
        exact hnd.1 (by rw [← hmem]; exact hk)

theorem loadLoop_append_malformed {bad : RawEntry}
    (hbad : bad.expression = none ∨ bad.params = none)
    (n : String) (rest : List (String × RawEntry)) :
    ∀ (pre : List (String × RawEntry)) (acc : Catalog),
      loadLoop acc (pre ++ (n, bad) :: rest) = loadLoop acc pre := by
  intro pre
  induction pre with
  | nil =>
    intro acc
    obtain ⟨eo, po⟩ := bad
    rcases hbad with h | h <;> simp only at h <;> subst h
    · cases po <;> simp [loadLoop]
    · cases eo <;> simp [loadLoop]
  | cons hd tl ih =>
    intro acc
    obtain ⟨m, entry⟩ := hd
    obtain ⟨eo, po⟩ := entry
    cases eo with
    | none => simp [loadLoop]
    | some e =>
      cases po with
      | none => simp [loadLoop]
      | some ps => simpa [loadLoop] using ih _

/-! ### Helper lemmas for the catalog-consistency invariant -/

theorem entry_consistent_mk (e : Expr) (ps : List Param) :
    entry_consistent (mk_catalog_entry e ps) :=
  ⟨rfl, rfl⟩

theorem consistent_dictInsert {k : String} {v : FuncEntry} {l : Catalog}
    (hl : ∀ pr ∈ l, entry_consistent pr.2) (hv : entry_consistent v) :
    ∀ pr ∈ dictInsert k v l, entry_consistent pr.2 := by
  intro pr hpr
  rcases mem_dictInsert hpr with h | h
  · rw [h]; exact hv
  · exact hl pr h

theorem consistent_loadLoop {acc : Catalog}
    (hacc : ∀ pr ∈ acc, entry_consistent pr.2) (raw : List (String × RawEntry)) :
    ∀ pr ∈ loadLoop acc raw, entry_consistent pr.2 := by
  induction raw generalizing acc with
  | nil => simpa [loadLoop] using hacc
  | cons hd tl ih =>
    obtain ⟨n, entry⟩ := hd
    obtain ⟨eo, po⟩ := entry
    cases eo with
    | none => simpa [loadLoop] using hacc
    | some e =>
      cases po with
      | none => simpa [loadLoop] using hacc
      | some ps =>
        simpa [loadLoop] using
          ih (consistent_dictInsert hacc (entry_consistent_mk e ps))

theorem consistent_load (f : FileState) :
    ∀ pr ∈ load_functions f, entry_consistent pr.2 := by
  cases f with
  | missing => simp [load_functions]
  | corrupt => simp [load_functions]
  | ok raw => exact consistent_loadLoop (by simp) raw

theorem consistent_applyOp {w : World}
    (h : ∀ pr ∈ w.mem, entry_consistent pr.2) (op : MgrOp) :
    ∀ pr ∈ (applyOp w op).mem, entry_consistent pr.2 := by
  cases op with
  | load => exact consistent_load w.file
  | add n e ps =>
    simpa [applyOp, add_function] using
      consistent_dictInsert h (entry_consistent_mk e ps)
  | remove n =>
    by_cases hmem : (dictLookup n w.mem).isSome
    · intro pr hpr
      simp only [applyOp, remove_function, if_pos hmem] at hpr
      exact h pr (List.mem_of_mem_filter hpr)
    · simpa [applyOp, remove_function, hmem] using h

theorem consistent_runOps {w : World}
    (h : ∀ pr ∈ w.mem, entry_consistent pr.2) (ops : List MgrOp) :
    ∀ pr ∈ (runOps w ops).mem, entry_consistent pr.2 := by
  induction ops generalizing w with
  | nil => simpa [runOps] using h
  | cons op tl ih =>
    simpa [runOps] using ih (consistent_applyOp h op)

/-! ### Helper lemmas about rational sums -/

theorem list_sum_all_eq (l : List ℚ) (c : ℚ) (h : ∀ v ∈ l, v = c) :
    l.sum = c * l.length := by
  induction l with
  | nil => simp
  | cons a tl ih =>
    have ha : a = c := h a (by simp)
    have htl : tl.sum = c * tl.length := ih (fun v hv => h v (by simp [hv]))
    simp only [List.sum_cons, List.length_cons, ha, htl]
    push_cast
    ring

theorem list_sum_nonneg_all_zero (l : List ℚ) (hnn : ∀ v ∈ l, 0 ≤ v)
    (hsum : l.sum = 0) : ∀ v ∈ l, v = 0 := by
  induction l with
  | nil => simp
  | cons a tl ih =>
    have ha : 0 ≤ a := hnn a (by simp)
    have htl : 0 ≤ tl.sum :=
      List.sum_nonneg (fun v hv => hnn v (by simp [hv]))
    simp only [List.sum_cons] at hsum
    have ha0 : a = 0 := by linarith
    have htl0 : tl.sum = 0 := by linarith
    intro v hv
    rcases List.mem_cons.mp hv with h | h
    · rw [h, ha0]
    · exact ih (fun u hu => hnn u (by simp [hu])) htl0 v h

/-! ### Claim theorems -/

/-- C1 counterexample: the claim that `add` returns `false` and leaves
the catalog unchanged whenever the expression cannot be evaluated is
false.  The expression `qq` references an undeclared name and fails to
evaluate at the representative point (`x = 1`, initial value of the
declared parameter `a`), yet `add_function` on an empty manager returns
`true`, stores the function in memory, and persists it to the JSON
file. -/
theorem C1_add_stores_unevaluable_expression :
    evalExpr semZero badExpr (custom_namespace ["a"] [(1 : ℚ)] 1)
        = .error (.nameError "qq")
    ∧ (add_function ⟨[], .missing⟩ "f" badExpr [paramA]).2 = true
    ∧ (dictLookup "f" (add_function ⟨[], .missing⟩ "f" badExpr [paramA]).1.mem).isSome
        = true
    ∧ (add_function ⟨[], .missing⟩ "f" badExpr [paramA]).1.file
        = FileState.ok [("f", ⟨some badExpr, some [paramA]⟩)] :=
  ⟨rfl, rfl, rfl, rfl⟩

/-- C1 (amended): `add_function` never inspects the expression — building
the evaluator is lazy, so for every starting state, name, expression and
well-formed parameter list the call returns `true` (the save result),
stores the entry in memory, and persists the serialized catalog
containing it.  An unevaluable expression is accepted and its failure
surfaces only when the stored evaluator is later called; the `x = 1.0`
feasibility evaluation described by the spec exists only in the UI dialog
upstream of `add`. -/
theorem C1_add_always_stores_and_persists (w : World) (name : String)
    (e : Expr) (ps : List Param) :
    (add_function w name e ps).2 = true
    ∧ dictLookup name (add_function w name e ps).1.mem = some (mk_catalog_entry e ps)
    ∧ (add_function w name e ps).1.file
        = FileState.ok (serialize_functions (dictInsert name (mk_catalog_entry e ps) w.mem)) :=
  ⟨rfl, dictLookup_dictInsert_self _ _ _, rfl⟩

/-- C2 counterexample: the claim that the scalar objective never returns
NaN is false.  A target evaluator that produces a non-finite (`nan`)
output without raising — numpy's behaviour for e.g. a negative base with
fractional exponent over an array — makes the residual objective return
`nan`, because the code guards only raised exceptions, not non-finite
outputs. -/
theorem C2_objective_returns_nan_on_nonfinite_output :
    residual_func cexTarget [PyFloat.finite 0] none [1] = PyFloat.nan
    ∧ cexTarget (trim_params none [1]) = .ok [PyFloat.nan] :=
  ⟨rfl, rfl⟩

/-- C2 (amended): for every candidate parameter vector for which
evaluating the target function RAISES, the scalar objective used by
Differential Evolution, Basin Hopping, SHGO and Dual Annealing returns
positive infinity rather than propagating the fault; non-finite outputs
produced without raising are not guarded and flow into the sum of squared
residuals, which can then be NaN. -/
theorem C2_objective_inf_on_exception (f : TargetFunction) (y : List PyFloat)
    (expected : Option ℕ) (params : List ℚ) (u : Unit)
    (h : f (trim_params expected params) = .error u) :
    residual_func f y expected params = PyFloat.inf := by
  simp [residual_func, h]

/-- Witness for C2 (amended): an always-raising evaluator at the concrete
candidate vector `[1]` yields the infinite sentinel. -/
theorem C2_objective_inf_on_exception_witness :
    residual_func raisingTarget [PyFloat.finite 0] none [1] = PyFloat.inf :=
  C2_objective_inf_on_exception raisingTarget [PyFloat.finite 0] none [1] () rfl

/-- C3: the claim is right and the code is wrong (the code stores the
resolved `param_count` into the params dict "for use by algorithms" but
every algorithm body ignores it and re-resolves against the BUILT-IN
catalog only, falling back to 3).  Failing input, evaluated here: custom
function `MyFunc` with 2 declared parameters, resolvable in the custom
catalog (so `run_fitting` succeeds), no bounds or initial guess supplied —
Differential Evolution is invoked with the default bounds of length 3 and
Basin Hopping with the default initial guess of length 3, not the declared
`param_count` 2. -/
theorem C3_custom_function_gets_fallback_default_length :
    run_fitting myFuncCatalog "Differential Evolution" { function_name := some "MyFunc" }
        = .ok (.differentialEvolution [((0 : ℚ), 10), (0, 10), (0, 10)])
    ∧ run_fitting myFuncCatalog "Basin Hopping" { function_name := some "MyFunc" }
        = .ok (.basinHopping [(1 : ℚ), 1, 1])
    ∧ (get_function_info myFuncCatalog "MyFunc").map FuncInfo.param_count = some 2
    ∧ builtin_function_info "MyFunc" = none :=
  ⟨rfl, rfl, rfl, rfl⟩

/-- C4 counterexample: the claim that a wrong-length supplied array is
"truncated or padded" is false.  For `Power Law` (`param_count` 3) with a
supplied bounds array of length 4, truncation-or-padding would keep the
first three supplied pairs, but the code discards the supplied array
wholesale and uses the all-default array. -/
theorem C4_wrong_length_array_not_truncated_or_padded :
    differential_evolution_bounds c4Params = [((0 : ℚ), 10), (0, 10), (0, 10)]
    ∧ spec_truncate_pad_bounds [((1 : ℚ), 2), (3, 4), (5, 6), (7, 8)] 3
        = [((1 : ℚ), 2), (3, 4), (5, 6)]
    ∧ differential_evolution_bounds c4Params
        ≠ spec_truncate_pad_bounds [((1 : ℚ), 2), (3, 4), (5, 6), (7, 8)] 3 :=
  ⟨rfl, rfl, by decide⟩

/-- C4 (amended): for a function name resolving in the built-in catalog,
a supplied bounds or initial-guess array whose length disagrees with
`param_count` is silently DISCARDED and replaced wholesale by the default
array (`(0,10)` bounds, `1.0` guesses) of length `param_count`, rather
than rejected; the internally-used array therefore always has exactly
`param_count` entries. -/
theorem C4_wrong_length_array_replaced_by_defaults (p : FitParams)
    (info : BuiltinInfo) (bs : List (ℚ × ℚ)) (xs : List ℚ)
    (hinfo : builtin_function_info (p.function_name.getD "Unknown") = some info) :
    (p.bounds = some bs → bs.length ≠ info.param_count →
      differential_evolution_bounds p
        = List.replicate info.param_count ((0 : ℚ), (10 : ℚ)))
    ∧ (p.x0 = some xs → xs.length ≠ info.param_count →
      basin_hopping_x0 p = List.replicate info.param_count (1 : ℚ))
    ∧ (differential_evolution_bounds p).length = info.param_count
    ∧ (basin_hopping_x0 p).length = info.param_count := by
  have hn : resolved_param_count p = info.param_count := by
    simp [resolved_param_count, hinfo]
  refine ⟨?_, ?_, ?_, ?_⟩
  · intro hb hlen
    simp [differential_evolution_bounds, hn, hb, hlen]
  · intro hx hlen
    simp [basin_hopping_x0, hn, hx, hlen]
  · simp only [differential_evolution_bounds, hn]
    cases hb : p.bounds with
    | none => simp
    | some bs' =>
      by_cases hlen : bs'.length = info.param_count
      · simp [hlen]
      · simp [hlen]
  · simp only [basin_hopping_x0, hn]
    cases hx : p.x0 with
    | none => simp
    | some xs' =>
      by_cases hlen : xs'.length = info.param_count
      · simp [hlen]
      · simp [hlen]

/-- Witness for C4 (amended): the `Power Law` request supplying a length-4
bounds array and a length-2 initial guess gets the all-default length-3
arrays. -/
theorem C4_wrong_length_array_replaced_by_defaults_witness :
    differential_evolution_bounds c4Params = List.replicate 3 ((0 : ℚ), (10 : ℚ))
    ∧ basin_hopping_x0 c4Params = List.replicate 3 (1 : ℚ) :=
  ⟨(C4_wrong_length_array_replaced_by_defaults c4Params powerLawInfo
      [((1 : ℚ), 2), (3, 4), (5, 6), (7, 8)] [(2 : ℚ), 3] rfl).1 rfl (by decide),
   (C4_wrong_length_array_replaced_by_defaults c4Params powerLawInfo
      [((1 : ℚ), 2), (3, 4), (5, 6), (7, 8)] [(2 : ℚ), 3] rfl).2.1 rfl (by decide)⟩

/-- C5 counterexample: the claim that only `x`, the declared parameter
names and `sin`, `cos`, `exp`, `log` are resolvable in the evaluation
namespace is false: for an evaluator with declared parameters `["a"]`,
the name `np` — the entire numpy module — is also resolvable. -/
theorem C5_np_resolvable_in_restricted_namespace :
    dictLookup "np" (custom_namespace ["a"] [(1 : ℚ)] 1) = some NsVal.module
    ∧ "np" ∉ (["x", "a", "sin", "cos", "exp", "log"] : List String) :=
  ⟨rfl, by decide⟩

/-- C5 (amended): the evaluation namespace has no ambient builtins, but
binds — besides `x`, the declared parameter names that received an
argument, and `sin`, `cos`, `exp`, `log` — also the name `np` (the whole
numpy module); exactly these names are resolvable.  Evaluation failures
are NOT caught at the evaluator boundary: a reference to an unresolvable
name propagates out of the evaluator as a `NameError`-style fault (the
callers — `add_function` and the residual wrappers — are the ones that
catch it). -/
theorem C5_namespace_binds_np_and_faults_propagate (paramNames : List String)
    (args : List ℚ) (x : ℚ) (s : String) :
    ((dictLookup s (custom_namespace paramNames args x)).isSome ↔
      (s = "x" ∨ s ∈ (bound_params paramNames args).map Prod.fst
        ∨ s ∈ (["np", "sin", "cos", "exp", "log"] : List String)))
    ∧ (∀ sem : MathSem, dictLookup s (custom_namespace paramNames args x) = none →
        evalExpr sem (Expr.var s) (custom_namespace paramNames args x)
          = .error (.nameError s)) := by
  constructor
  · rw [dictLookup_isSome_iff]
    simp only [custom_namespace, List.map_cons, List.map_append, List.map_reverse,
      List.mem_cons, List.mem_append, List.mem_reverse, base_namespace]
    simp [or_assoc]
  · intro sem hnone
    simp [evalExpr, hnone]

/-- Witness for C5 (amended): the unresolvable name `qq` propagates out of
the evaluator as a `NameError`-style fault. -/
theorem C5_namespace_binds_np_and_faults_propagate_witness :
    evalExpr semZero (Expr.var "qq") (custom_namespace ["a"] [(1 : ℚ)] 1)
      = .error (.nameError "qq") :=
  (C5_namespace_binds_np_and_faults_propagate ["a"] [1] 1 "qq").2 semZero rfl

/-- C6: for every fitting request with a recognised algorithm whose
function name is absent from both the built-in and the custom catalog,
`run_fitting` returns the typed `UnknownFunction` failure; the error is
produced before the dispatch step, so no optimizer call is described by
the result and no state (not even the params dict, whose `param_count`
write comes after resolution) is touched. -/
theorem C6_unknown_function_typed_error_before_dispatch (custom : Catalog)
    (algorithm_name : String) (p : FitParams)
    (halg : algorithm_name ∈ algorithm_names)
    (hb : builtin_function_info (p.function_name.getD "Unknown") = none)
    (hc : get_function_info custom (p.function_name.getD "Unknown") = none) :
    run_fitting custom algorithm_name p
      = .error (.unknownFunction (p.function_name.getD "Unknown")) := by
  simp [run_fitting, halg, hb, hc]

/-- Witness for C6: requesting SHGO on the name `Nope`, unknown to both
catalogs, returns the typed `UnknownFunction` failure. -/
theorem C6_unknown_function_typed_error_before_dispatch_witness :
    run_fitting [] "SHGO" { function_name := some "Nope" }
      = .error (.unknownFunction "Nope") :=
  C6_unknown_function_typed_error_before_dispatch [] "SHGO"
    { function_name := some "Nope" } (by decide) rfl rfl

/-- C7: round-trip.  For any custom function added with `add_function`
and the catalog then reloaded from the persisted JSON file,
`get_function_info` returns the same `{expression, params, param_count,
equation}` record as before the reload, that record carries exactly the
added expression and parameters, and `get_function` returns an evaluator
that evaluates identically to the pre-reload evaluator at any test point
(any `x`, any argument vector, any interpretation of the math
functions).  The hypothesis is the dict representation invariant: the
starting in-memory catalog has no duplicate keys. -/
theorem C7_add_then_reload_round_trip (w : World) (name : String) (e : Expr)
    (ps : List Param) (sem : MathSem) (x : ℚ) (args : List ℚ)
    (hnd : (w.mem.map Prod.fst).Nodup) :
    get_function_info (load_functions (add_function w name e ps).1.file) name
        = get_function_info (add_function w name e ps).1.mem name
    ∧ get_function_info (add_function w name e ps).1.mem name
        = some ⟨e, ps, ps.length, e⟩
    ∧ (get_function (load_functions (add_function w name e ps).1.file) name).map
          (fun f => f sem x args)
        = (get_function (add_function w name e ps).1.mem name).map
          (fun f => f sem x args) := by
  have hnd' : ((dictInsert name (mk_catalog_entry e ps) w.mem).map Prod.fst).Nodup :=
    nodup_keys_dictInsert _ _ hnd
  have hlook : dictLookup name (dictInsert name (mk_catalog_entry e ps) w.mem)
      = some (mk_catalog_entry e ps) := dictLookup_dictInsert_self _ _ _
  have hload : load_functions (add_function w name e ps).1.file
      = (dictInsert name (mk_catalog_entry e ps) w.mem).map
          (fun pr => (pr.1, mk_catalog_entry pr.2.expression pr.2.params)) := by
    show loadLoop [] (serialize_functions (dictInsert name (mk_catalog_entry e ps) w.mem)) = _
    rw [loadLoop_serialize _ [] hnd' (by simp)]
    simp
  have hlook2 : dictLookup name
        ((dictInsert name (mk_catalog_entry e ps) w.mem).map
          (fun pr => (pr.1, mk_catalog_entry pr.2.expression pr.2.params)))
      = some (mk_catalog_entry e ps) := by
    have h := dictLookup_map_value (fun en => mk_catalog_entry en.expression en.params)
      name (dictInsert name (mk_catalog_entry e ps) w.mem)
    rw [hlook] at h
    exact h
  have hm : get_function_info (add_function w name e ps).1.mem name
      = some ⟨e, ps, ps.length, e⟩ := by
    show (dictLookup name (dictInsert name (mk_catalog_entry e ps) w.mem)).map _ = _
    rw [hlook]
    rfl
  have hl : get_function_info (load_functions (add_function w name e ps).1.file) name
      = some ⟨e, ps, ps.length, e⟩ := by
    rw [show get_function_info (load_functions (add_function w name e ps).1.file) name
        = (dictLookup name
            ((dictInsert name (mk_catalog_entry e ps) w.mem).map
              (fun pr => (pr.1, mk_catalog_entry pr.2.expression pr.2.params)))).map
            (fun en => (⟨en.expression, en.params, en.param_count, en.equation⟩ : FuncInfo))
      from by rw [← hload]; rfl]
    rw [hlook2]
    rfl
  refine ⟨hl.trans hm.symm, hm, ?_⟩
  have hgf_mem : get_function (add_function w name e ps).1.mem name
      = some (mk_catalog_entry e ps).function := by
    show (dictLookup name (dictInsert name (mk_catalog_entry e ps) w.mem)).map
        (fun en => en.function) = some (mk_catalog_entry e ps).function
    rw [hlook]
    rfl
  have hgf_load : get_function (load_functions (add_function w name e ps).1.file) name
      = some (mk_catalog_entry e ps).function := by
    show (dictLookup name (load_functions (add_function w name e ps).1.file)).map
        (fun en => en.function) = some (mk_catalog_entry e ps).function
    rw [hload, hlook2]
    rfl
  rw [hgf_load, hgf_mem]

/-- Witness for C7: adding the constant function `g` to an empty manager,
reloading, and evaluating at `x = 2` with argument vector `[3]`. -/
theorem C7_add_then_reload_round_trip_witness :
    get_function_info
        (load_functions (add_function ⟨[], .missing⟩ "g" (Expr.const 1) [paramA]).1.file) "g"
      = get_function_info (add_function ⟨[], .missing⟩ "g" (Expr.const 1) [paramA]).1.mem "g"
    ∧ get_function_info (add_function ⟨[], .missing⟩ "g" (Expr.const 1) [paramA]).1.mem "g"
      = some ⟨Expr.const 1, [paramA], [paramA].length, Expr.const 1⟩
    ∧ (get_function
          (load_functions (add_function ⟨[], .missing⟩ "g" (Expr.const 1) [paramA]).1.file)
          "g").map (fun f => f semZero 2 [3])
      = (get_function (add_function ⟨[], .missing⟩ "g" (Expr.const 1) [paramA]).1.mem
          "g").map (fun f => f semZero 2 [3]) :=
  C7_add_then_reload_round_trip ⟨[], .missing⟩ "g" (Expr.const 1) [paramA]
    semZero 2 [3] (by simp)

/-- C8 counterexample: the claim that malformed persisted entries are
skipped while every well-formed entry is still loaded is false.  In a
file holding a well-formed entry `g1`, then a malformed entry (missing
`expression` key), then a well-formed entry `g2`, the single `try` around
the whole rebuild loop aborts at the malformed entry: `g1` is loaded but
the well-formed `g2` is not. -/
theorem C8_wellformed_entry_after_malformed_dropped :
    (dictLookup "g2" (load_functions (.ok mixedRawFile))).isSome = false
    ∧ goodEntryTwo.expression.isSome = true
    ∧ goodEntryTwo.params.isSome = true
    ∧ (dictLookup "g1" (load_functions (.ok mixedRawFile))).isSome = true :=
  ⟨rfl, rfl, rfl, rfl⟩

/-- C8 (amended): `load_functions` never raises past its own boundary and
a missing file yields an empty catalog; but malformed entries are not
skipped individually — the load aborts at the FIRST malformed entry,
keeping exactly the entries processed before it and dropping every later
entry, well-formed or not (one error is logged for the whole load). -/
theorem C8_load_aborts_at_first_malformed_entry (pre : List (String × RawEntry))
    (n : String) (bad : RawEntry) (rest : List (String × RawEntry))
    (hbad : bad.expression = none ∨ bad.params = none) :
    load_functions (.ok (pre ++ (n, bad) :: rest)) = load_functions (.ok pre)
    ∧ load_functions .missing = ([] : Catalog) := by
  refine ⟨?_, rfl⟩
  simp only [load_functions]
  exact loadLoop_append_malformed hbad n rest pre []

/-- Witness for C8 (amended): the mixed file loads exactly as if it ended
right before its malformed entry. -/
theorem C8_load_aborts_at_first_malformed_entry_witness :
    load_functions (.ok mixedRawFile) = load_functions (.ok [("g1", goodEntryOne)])
    ∧ load_functions .missing = ([] : Catalog) :=
  C8_load_aborts_at_first_malformed_entry [("g1", goodEntryOne)] "bad"
    malformedEntry [("g2", goodEntryTwo)] (Or.inl rfl)

/-- C9: the fit-quality reporter's R-squared.  For every nonempty dataset
in which all `y` values are identical, `ss_tot` is zero and `r_squared`
is assigned exactly 1 (the division branch is never taken, so no division
error can arise); for every other dataset `ss_tot` is nonzero and
`r_squared` is computed as `1 - ss_res / ss_tot`. -/
theorem C9_r_squared_edge_case_and_formula (y y_pred : List ℚ)
    (hlen : 0 < y.length) :
    ((∃ c, ∀ v ∈ y, v = c) → ss_tot y = 0 ∧ r_squared y y_pred = 1)
    ∧ (¬ (∃ c, ∀ v ∈ y, v = c) →
        ss_tot y ≠ 0 ∧ r_squared y y_pred = 1 - ss_res y y_pred / ss_tot y) := by
  have hcast : (y.length : ℚ) ≠ 0 :=
    Nat.cast_ne_zero.mpr (Nat.pos_iff_ne_zero.mp hlen)
  constructor
  · rintro ⟨c, hc⟩
    have hsum : y.sum = c * y.length := list_sum_all_eq y c hc
    have hmean : mean y = c := by
      rw [mean, hsum, mul_div_cancel_right₀ _ hcast]
    have htot : ss_tot y = 0 := by
      rw [ss_tot]
      have hall : ∀ w ∈ y.map (fun v => (v - mean y) ^ 2), w = 0 := by
        intro w hw
        obtain ⟨v, hv, rfl⟩ := List.mem_map.mp hw
        rw [hc v hv, hmean, sub_self]
        simp
      simpa using list_sum_all_eq _ 0 hall
    exact ⟨htot, by rw [r_squared, if_pos htot]⟩
  · intro hne
    have htot : ss_tot y ≠ 0 := by
      intro h0
      apply hne
      refine ⟨mean y, fun v hv => ?_⟩
      have hnn : ∀ w ∈ y.map (fun v => (v - mean y) ^ 2), 0 ≤ w := by
        intro w hw
        obtain ⟨u, hu, rfl⟩ := List.mem_map.mp hw
        positivity
      rw [ss_tot] at h0
      have hz := list_sum_nonneg_all_zero _ hnn h0
      have hv2 : (v - mean y) ^ 2 = 0 := hz _ (List.mem_map.mpr ⟨v, hv, rfl⟩)
      have h3 : v - mean y = 0 := sq_eq_zero_iff.mp hv2
      linarith
    exact ⟨htot, by rw [r_squared, if_neg htot]⟩

/-- Witness for C9: the all-identical dataset `[2, 2]` has `ss_tot = 0`
and R-squared exactly 1. -/
theorem C9_r_squared_edge_case_and_formula_witness :
    ss_tot [(2 : ℚ), 2] = 0 ∧ r_squared [(2 : ℚ), 2] [0, 1] = 1 :=
  (C9_r_squared_edge_case_and_formula [2, 2] [0, 1] (by decide)).1 ⟨2, by decide⟩

/-- C10: catalog consistency invariant.  Starting from the manager's
initial state (a load of whatever file is on disk), after any sequence of
`load_functions`, `add_function` and `remove_function` operations, every
entry stored in the catalog satisfies `param_count = params.length` and
its displayed `equation` equals its `expression` exactly. -/
theorem C10_catalog_entry_consistency (file : FileState) (ops : List MgrOp)
    (name : String) (en : FuncEntry)
    (h : dictLookup name (runOps (initWorld file) ops).mem = some en) :
    en.param_count = en.params.length ∧ en.equation = en.expression :=
  consistent_runOps (w := initWorld file) (consistent_load file) ops
    (name, en) (dictLookup_mem h)

/-- Witness for C10: after adding one function to a manager initialised
from a missing file, the stored entry satisfies the invariant. -/
theorem C10_catalog_entry_consistency_witness :
    (mk_catalog_entry (Expr.const 1) [paramA]).param_count
        = (mk_catalog_entry (Expr.const 1) [paramA]).params.length
    ∧ (mk_catalog_entry (Expr.const 1) [paramA]).equation
        = (mk_catalog_entry (Expr.const 1) [paramA]).expression :=
  C10_catalog_entry_consistency .missing [.add "f" (.const 1) [paramA]] "f"
    (mk_catalog_entry (Expr.const 1) [paramA]) rfl

end CurveFit
